import Mathlib

/-!
# A shallow embedding of the `git-rs` object core

This file embeds, in Lean, the data model and the operations of the
`git-rs` repository (files `src/git_objects.rs`, `src/utils.rs`,
`src/git.rs`) and proves properties of that embedding.

Conventions of the embedding:

* Rust byte slices and `Vec<u8>` become `List Nat` (each element a byte
  value).  Rust `String`s are represented by the byte list of their UTF-8
  encoding, so `str` operations (`split`, `starts_with`, `replace`) become
  byte-level list operations, which agree with the character-level ones on
  the ASCII separators the code uses.
* Fallible Rust functions (`anyhow::Result`) return `ROut`, which
  distinguishes a typed error (`err`), a Rust panic such as an
  out-of-bounds index or slice (`crash`), and fuel exhaustion of the
  embedding (`noFuel`) from a successful value (`ok`).
* The SHA-1 digest (external `sha1` crate) is a parameter
  `sha : List Nat → List Nat` of every definition that hashes.
* The object store on disk (`read_object` in `utils.rs`) is a parameter
  `store : List Nat → Option (List Nat)` mapping a hex id (as bytes) to
  the compressed file content, `none` meaning the read fails.
* Recursive decoding of children follows the store, which the Rust code
  assumes acyclic; the embedding uses an explicit fuel argument.
-/

/-- Outcome of a fallible Rust computation: a value, a typed
`anyhow::Error`, a panic (out-of-bounds index or slice, `expect`), or
exhaustion of the embedding's recursion fuel. -/
inductive ROut (α : Type) : Type where
  | ok (val : α) : ROut α
  | err : ROut α
  | crash : ROut α
  | noFuel : ROut α
deriving DecidableEq

def ROut.bind {α β : Type} : ROut α → (α → ROut β) → ROut β
  | .ok v, f => f v
  | .err, _ => .err
  | .crash, _ => .crash
  | .noFuel, _ => .noFuel

def ROut.map {α β : Type} (f : α → β) : ROut α → ROut β
  | .ok v => .ok (f v)
  | .err => .err
  | .crash => .crash
  | .noFuel => .noFuel

def ROut.isOk {α : Type} : ROut α → Bool
  | .ok _ => true
  | _ => false

def ROut.isErr {α : Type} : ROut α → Bool
  | .err => true
  | _ => false

/-- Byte list of an ASCII string literal (used to write the byte-level
constants of the source, e.g. `"blob"`, `"tree "`, `".git"`). -/
def strB (s : String) : List Nat := s.data.map Char.toNat

/-- The bytes before the first occurrence of `sep`. -/
def takeUntilByte (sep : Nat) : List Nat → List Nat
  | [] => []
  | b :: rest => if b = sep then [] else b :: takeUntilByte sep rest

/-- The bytes strictly after the first occurrence of `sep` (everything is
consumed when `sep` does not occur), matching what a Rust iterator holds
after a `for`-loop that breaks on `sep`. -/
def dropPastByte (sep : Nat) : List Nat → List Nat
  | [] => []
  | b :: rest => if b = sep then rest else dropPastByte sep rest

/-- `dropPastByte` specialised to the null byte: the suffix after the
first `\0`, as left by the scanning loop of `parse_content_header`. -/
def dropThroughNull (l : List Nat) : List Nat := dropPastByte 0 l

/-- Rust's `str::split(sep)` on a single-byte separator: never returns an
empty list, and keeps empty fragments between adjacent separators. -/
def splitOnByte (sep : Nat) : List Nat → List (List Nat)
  | [] => [[]]
  | b :: rest =>
      if b = sep then [] :: splitOnByte sep rest
      else
        match splitOnByte sep rest with
        | [] => [[b]]
        | g :: gs => (b :: g) :: gs

/-- Continuation byte test of UTF-8 (`0x80 ..= 0xBF`). -/
def utf8Cont (b : Nat) : Bool := 128 ≤ b && b ≤ 191

/-- Validity of a byte list as UTF-8, exactly the check performed by
Rust's `String::from_utf8` (rejecting overlong forms, surrogates and
code points above `U+10FFFF`). -/
def utf8Valid : List Nat → Bool
  | [] => true
  | b :: rest =>
      if b ≤ 127 then utf8Valid rest
      else if 194 ≤ b && b ≤ 223 then
        match rest with
        | c :: r => utf8Cont c && utf8Valid r
        | [] => false
      else if b = 224 then
        match rest with
        | c :: d :: r => (160 ≤ c && c ≤ 191) && utf8Cont d && utf8Valid r
        | _ => false
      else if (225 ≤ b && b ≤ 236) || (238 ≤ b && b ≤ 239) then
        match rest with
        | c :: d :: r => utf8Cont c && utf8Cont d && utf8Valid r
        | _ => false
      else if b = 237 then
        match rest with
        | c :: d :: r => (128 ≤ c && c ≤ 159) && utf8Cont d && utf8Valid r
        | _ => false
      else if b = 240 then
        match rest with
        | c :: d :: e :: r => (144 ≤ c && c ≤ 191) && utf8Cont d && utf8Cont e && utf8Valid r
        | _ => false
      else if 241 ≤ b && b ≤ 243 then
        match rest with
        | c :: d :: e :: r => utf8Cont c && utf8Cont d && utf8Cont e && utf8Valid r
        | _ => false
      else if b = 244 then
        match rest with
        | c :: d :: e :: r => (128 ≤ c && c ≤ 143) && utf8Cont d && utf8Cont e && utf8Valid r
        | _ => false
      else false

/-- Auxiliary digit accumulator for decimal rendering. -/
def natToDecAux : Nat → Nat → List Nat → List Nat
  | 0, _, acc => acc
  | Nat.succ fuel, n, acc =>
      if n = 0 then acc else natToDecAux fuel (n / 10) ((n % 10 + 48) :: acc)

/-- Decimal rendering of a number as ASCII bytes, as produced by Rust's
`format!("{}", n)`. -/
def natToDec (n : Nat) : List Nat :=
  if n = 0 then [48] else natToDecAux (n + 1) n []

/-- One lowercase hex digit, as in `format!("{:02x}", b)`. -/
def hexDigit (n : Nat) : Nat := if n ≤ 9 then 48 + n else 87 + n

/-- `to_hex_string` of `utils.rs`: every byte becomes two lowercase hex
digits. -/
def toHexBytes : List Nat → List Nat
  | [] => []
  | b :: rest => hexDigit (b / 16) :: hexDigit (b % 16) :: toHexBytes rest

/-- Value of one ASCII hex digit, as accepted by
`u8::from_str_radix(_, 16)`. -/
def hexVal (c : Nat) : Option Nat :=
  if 48 ≤ c && c ≤ 57 then some (c - 48)
  else if 97 ≤ c && c ≤ 102 then some (c - 87)
  else if 65 ≤ c && c ≤ 70 then some (c - 55)
  else none

/-- `from_hex` of `utils.rs`: consumes the string two hex digits at a
time; a non-digit is a typed `ParseIntError`, while an odd length makes
the final `&s[i..i + 2]` slice go out of bounds, i.e. panic. -/
def fromHexBytes : List Nat → ROut (List Nat)
  | [] => .ok []
  | [_] => .crash
  | c1 :: c2 :: rest =>
      match hexVal c1, hexVal c2 with
      | some h, some l => (fromHexBytes rest).map (fun bs => (16 * h + l) :: bs)
      | _, _ => .err

/-- `generate_object_id` of `utils.rs`: hex string of the SHA-1 digest;
the digest itself (external `sha1` crate) is the parameter `sha`. -/
def generateObjectId (sha : List Nat → List Nat) (content : List Nat) : List Nat :=
  toHexBytes (sha content)

/-- Modelled from the spec: the zlib transform used by `compress` in
`utils.rs` is implemented by the external `flate2` crate, whose code is
not under `src/`; the spec describes `compress` as mapping bytes to bytes
such that `decompress` recovers them exactly (a lossless pair).  The
model frames the payload behind a two-byte header and a
decimal length terminated by a null byte. -/
def compress (bytes : List Nat) : List Nat :=
  120 :: 156 :: (natToDec bytes.length ++ 0 :: bytes)

/-- Modelled from the spec: inverse direction of the lossless pair; a
stream that is not of the compressed form is a typed decompression
error, as in `decompress` of `utils.rs`. -/
def decompress : List Nat → ROut (List Nat)
  | 120 :: 156 :: rest => .ok (dropThroughNull rest)
  | _ => .err

/-- `TreeFileModes` of `git_objects.rs`. -/
inductive TreeFileModes : Type where
  | Regular : TreeFileModes
  | Executable : TreeFileModes
  | SymbolicLink : TreeFileModes
  | Directory : TreeFileModes
deriving DecidableEq

/-- `impl From<&str> for TreeFileModes`: the four recognized mode tokens,
with every other token falling through to `Regular`. -/
def treeFileModesOfBytes (value : List Nat) : TreeFileModes :=
  if value = strB "100644" then .Regular
  else if value = strB "100755" then .Executable
  else if value = strB "120000" then .SymbolicLink
  else if value = strB "040000" then .Directory
  else if value = strB "40000" then .Directory
  else .Regular

/-- `impl Display for TreeFileModes`. -/
def treeFileModesDisplay : TreeFileModes → List Nat
  | .Regular => strB "100644"
  | .Executable => strB "100755"
  | .SymbolicLink => strB "120000"
  | .Directory => strB "40000"

/-- The `object_type` string computed from a mode when a `TreeObject` is
built (both in `TreeObject::new` and in the tree branch of
`from_file_content_and_type`): `"tree"` for `Directory`, `"blob"` for
everything else. -/
def objectTypeOfMode : TreeFileModes → List Nat
  | .Directory => strB "tree"
  | _ => strB "blob"

mutual
/-- The `GitObject` enum of `git_objects.rs` (`Blob`, `Tree`, `Commit`);
strings are byte lists. -/
inductive GObj : Type where
  | blob (hash : List Nat) (size : Nat) (content : List Nat) : GObj
  | tree (hash : List Nat) (size : Nat) (objects : List TreeObj) : GObj
  | commit (hash : List Nat) (message : List Nat) (tree : GObj)
      (parent : Option (List GObj))
      (authorName authorEmail committerName committerEmail : List Nat) : GObj

/-- The `TreeObject` struct of `git_objects.rs`. -/
inductive TreeObj : Type where
  | mk (hash : List Nat) (name : List Nat) (mode : TreeFileModes)
      (objectType : List Nat) (gitObject : GObj) : TreeObj
end

def TreeObj.hash : TreeObj → List Nat
  | .mk h _ _ _ _ => h

def TreeObj.name : TreeObj → List Nat
  | .mk _ n _ _ _ => n

def TreeObj.mode : TreeObj → TreeFileModes
  | .mk _ _ m _ _ => m

def TreeObj.gitObject : TreeObj → GObj
  | .mk _ _ _ _ g => g

/-- `GitObject::get_hash`. -/
def gHash : GObj → List Nat
  | .blob h _ _ => h
  | .tree h _ _ => h
  | .commit h _ _ _ _ _ _ _ => h

def gIsTree : GObj → Bool
  | .tree _ _ _ => true
  | _ => false

def gIsCommit : GObj → Bool
  | .commit _ _ _ _ _ _ _ _ => true
  | _ => false

/-- `GitObject::get_or_generate_hash`: keep a supplied hash, otherwise
hash `"{type} {len}\0{content}"`. -/
def getOrGenerateHash (sha : List Nat → List Nat) (objectType : List Nat)
    (hash : Option (List Nat)) (content : List Nat) : List Nat :=
  match hash with
  | some h => h
  | none => generateObjectId sha (objectType ++ 32 :: natToDec content.length ++ 0 :: content)

/-- `GitObject::parse_content_header`.  The Rust function slices
`content[0..4]` (panicking when the input is shorter), widens the tag to
six bytes when the first four are `"comm"` (`content[0..6]`, again a
panic when too short), checks the tag is UTF-8, then scans for a null
byte starting at index `type_len + 1` and returns the suffix after it;
the final `&content[content_index..]` panics when `content_index`
exceeds the length, which happens exactly when the input is the bare
type tag. -/
def parseContentHeader (content : List Nat) : ROut (List Nat × List Nat) :=
  match content with
  | a :: b :: c :: d :: rest =>
      if [a, b, c, d] = strB "comm" then
        match rest with
        | e :: f :: rest2 =>
            if utf8Valid [a, b, c, d, e, f] then
              match rest2 with
              | [] => .crash
              | _ :: rest3 => .ok ([a, b, c, d, e, f], dropThroughNull rest3)
            else .err
        | _ => .crash
      else
        if utf8Valid [a, b, c, d] then
          match rest with
          | [] => .crash
          | _ :: rest2 => .ok ([a, b, c, d], dropThroughNull rest2)
        else .err
  | _ => .crash

/-- One raw entry of a tree payload: mode bytes, name bytes, the (up to)
20 hash bytes. -/
structure RawTreeEntry : Type where
  modeBytes : List Nat
  nameBytes : List Nat
  shaBytes : List Nat
deriving DecidableEq

/-- The scanning loop of the `"tree"` branch of
`from_file_content_and_type`: while the iterator is non-empty, read mode
bytes up to a space, name bytes up to a null, then take (up to) 20 hash
bytes.  The fuel is called with `content.length + 1`, which is enough
because every entry consumes at least one byte. -/
def splitTreeEntries : Nat → List Nat → ROut (List RawTreeEntry)
  | 0, _ => .noFuel
  | _, [] => .ok []
  | Nat.succ n, b :: rest =>
      let mode := b :: takeUntilByte 32 rest
      let rest1 := dropPastByte 32 rest
      let name := takeUntilByte 0 rest1
      let rest2 := dropPastByte 0 rest1
      let sha := rest2.take 20
      let rest3 := rest2.drop 20
      (splitTreeEntries n rest3).map (fun es => ⟨mode, name, sha⟩ :: es)

/-- `from_file_content` = decompress, parse the header, then dispatch on
the type; `decode` is the dispatcher (`from_file_content_and_type` at
the current fuel). -/
def decodeWith (decode : List Nat → List Nat → Option (List Nat) → ROut GObj)
    (hash : List Nat) (compressedContent : List Nat) : ROut GObj :=
  (decompress compressedContent).bind fun content =>
    (parseContentHeader content).bind fun p =>
      decode p.1 p.2 (some hash)

/-- The per-entry body of the tree-decoding loop: turn each raw entry
into a `TreeObject` by hex-printing its hash, mapping the mode token
(`from_utf8_lossy` then `From<&str>`, which on byte lists is comparison
with the recognized tokens), reading the child object from the store
(`read_object`) and decoding it. -/
def decodeRawEntries (store : List Nat → Option (List Nat))
    (decode : List Nat → List Nat → Option (List Nat) → ROut GObj) :
    List RawTreeEntry → ROut (List TreeObj)
  | [] => .ok []
  | e :: rest =>
      let hashStr := toHexBytes e.shaBytes
      let modeEnum := treeFileModesOfBytes e.modeBytes
      match store hashStr with
      | none => .err
      | some childContent =>
          (decodeWith decode hashStr childContent).bind fun child =>
            (decodeRawEntries store decode rest).map fun objs =>
              TreeObj.mk hashStr e.nameBytes modeEnum (objectTypeOfMode modeEnum) child :: objs

/-- Accumulator of the commit-parsing loop: the mutable locals of the
`"commit"` branch. -/
structure CommitAcc : Type where
  parents : List GObj
  authorName : List Nat
  authorEmail : List Nat
  committerName : List Nat
  committerEmail : List Nat
  message : List Nat
deriving Inhabited

def commitAccInit : CommitAcc := ⟨[], [], [], [], [], []⟩

/-- `replace("<", "").replace(">", "")` on a byte string. -/
def stripAngles (l : List Nat) : List Nat :=
  (l.filter (fun b => b != 60)).filter (fun b => b != 62)

/-- The line-consuming loop of the `"commit"` branch, starting at
`line_index = 1` (the `lines` argument is the split content without its
first line).  Indexing past the end of `content_split` — reading
`current_line` when no line is left, a `parent`/`author`/`committer`
line with too few space-separated words, or a terminating line that is
the last line (so that `content_split[line_index + 1]` does not exist) —
is an out-of-bounds panic. -/
def commitLines (store : List Nat → Option (List Nat))
    (decode : List Nat → List Nat → Option (List Nat) → ROut GObj) :
    List (List Nat) → CommitAcc → ROut CommitAcc
  | [], _ => .crash
  | line :: rest, acc =>
      if (strB "parent").isPrefixOf line then
        match (splitOnByte 32 line)[1]? with
        | none => .crash
        | some ph =>
            match store ph with
            | none => .err
            | some pc =>
                (decodeWith decode ph pc).bind fun pobj =>
                  commitLines store decode rest { acc with parents := acc.parents ++ [pobj] }
      else if (strB "author").isPrefixOf line then
        match (splitOnByte 32 line)[1]?, (splitOnByte 32 line)[2]? with
        | some n, some e =>
            commitLines store decode rest { acc with authorName := n, authorEmail := stripAngles e }
        | _, _ => .crash
      else if (strB "committer").isPrefixOf line then
        match (splitOnByte 32 line)[1]?, (splitOnByte 32 line)[2]? with
        | some n, some e =>
            commitLines store decode rest
              { acc with committerName := n, committerEmail := stripAngles e }
        | _, _ => .crash
      else
        match rest with
        | [] => .crash
        | msg :: _ => .ok { acc with message := msg }

/-- `GitObject::from_file_content_and_type`, parameterised by the SHA-1
digest and the object store, with fuel bounding the recursion through
the store.  The `"blob"` branch insists the payload be valid UTF-8
(`String::from_utf8(content.to_vec())?`); the `"tree"` branch scans the
binary entries and decodes every child; the `"commit"` branch splits the
payload into lines, resolves the tree of line 0 (`tree_line[1]`,
panicking when line 0 has no second word), then runs the header loop;
any other tag is the typed `bail!("Unsupported Type")`. -/
def fromFileContentAndTypeF (sha : List Nat → List Nat)
    (store : List Nat → Option (List Nat)) :
    Nat → List Nat → List Nat → Option (List Nat) → ROut GObj
  | 0, _, _, _ => .noFuel
  | Nat.succ fuel, objType, content, hash =>
      if objType = strB "blob" then
        if utf8Valid content then
          .ok (.blob (getOrGenerateHash sha objType hash content) content.length content)
        else .err
      else if objType = strB "tree" then
        let h := getOrGenerateHash sha objType hash content
        (splitTreeEntries (content.length + 1) content).bind fun raw =>
          (decodeRawEntries store (fromFileContentAndTypeF sha store fuel) raw).map fun objs =>
            .tree h content.length objs
      else if objType = strB "commit" then
        let h := getOrGenerateHash sha objType hash content
        if utf8Valid content then
          match splitOnByte 10 content with
          | [] => .crash
          | l0 :: restLines =>
              match (splitOnByte 32 l0)[1]? with
              | none => .crash
              | some th =>
                  match store th with
                  | none => .err
                  | some tc =>
                      (decodeWith (fromFileContentAndTypeF sha store fuel) th tc).bind fun tobj =>
                        (commitLines store (fromFileContentAndTypeF sha store fuel) restLines
                            commitAccInit).map fun acc =>
                          .commit h acc.message tobj
                            (if acc.parents.isEmpty then none else some acc.parents)
                            acc.authorName acc.authorEmail acc.committerName acc.committerEmail
        else .err
      else .err

/-- `GitObject::from_file_content`: decompress, split off the header,
dispatch. -/
def fromFileContent (sha : List Nat → List Nat)
    (store : List Nat → Option (List Nat)) (fuel : Nat)
    (hash : List Nat) (compressedContent : List Nat) : ROut GObj :=
  decodeWith (fromFileContentAndTypeF sha store fuel) hash compressedContent

/-- The payload assembled by the `Commit` branch of
`GitObject::write_to_file` (the `uncomposed_content` buffer): the tree
line, the parent lines, an author line `"author {name} <{email}>"`, a
committer line, a blank line, the message, a final newline. -/
def commitUncomposedContent : GObj → Option (List Nat)
  | .commit _ message tree parent an ae cn ce =>
      some (strB "tree " ++ gHash tree ++ [10]
        ++ (match parent with
            | none => []
            | some ps => (ps.map (fun p => strB "parent " ++ gHash p ++ [10])).flatten)
        ++ (strB "author " ++ an ++ strB " <" ++ ae ++ [62])
        ++ [10]
        ++ (strB "committer " ++ cn ++ strB " <" ++ ce ++ [62])
        ++ [10, 10]
        ++ message
        ++ [10])
  | _ => none

/-- An event of the persistence layer: the finalisation of an object id
(a call to `generate_object_id`) or the write of an object file into
`.git/objects` (a call to the `write_to_file` helper of `utils.rs`). -/
inductive Ev : Type where
  | idFin (hash : List Nat) : Ev
  | store (hash : List Nat) : Ev
deriving DecidableEq

def isStoreEv : Ev → Bool
  | .store _ => true
  | .idFin _ => false

/-- `a` occurs in the list strictly before a later occurrence of `b`. -/
def occursBefore (a b : Ev) : List Ev → Bool
  | [] => false
  | x :: rest => if x = a then rest.contains b else occursBefore a b rest

mutual
/-- The sequence of object-store writes performed by
`GitObject::write_to_file`: a blob writes itself; a tree writes each of
its children (`object.git_object.write_to_file()?` inside the loop) and
then its own file; a commit writes only its own file. -/
def writeGObjTrace : GObj → List Ev
  | .blob h _ _ => [.store h]
  | .tree h _ objs => writeObjsTrace objs ++ [.store h]
  | .commit h _ _ _ _ _ _ _ => [.store h]

/-- The writes of the children loop of the `Tree` branch, in order. -/
def writeObjsTrace : List TreeObj → List Ev
  | [] => []
  | .mk _ _ _ _ g :: rest => writeGObjTrace g ++ writeObjsTrace rest
end

/-- A filesystem entry as listed by `list_directory`: a file with its
content or a subdirectory with its own entries, in the order the
filesystem reports them. -/
inductive FSEntry : Type where
  | file (name : List Nat) (content : List Nat) : FSEntry
  | dir (name : List Nat) (entries : List FSEntry) : FSEntry

def entryName : FSEntry → List Nat
  | .file n _ => n
  | .dir n _ => n

/-- `impl From<fs::FileType> for TreeFileModes` restricted to the two
entry kinds of the filesystem model. -/
def entryMode : FSEntry → TreeFileModes
  | .file _ _ => .Regular
  | .dir _ _ => .Directory

/-- `get_hidden_files` of `utils.rs`: when `.gitignore` exists its
content is split on newlines and `".git"` is appended; when reading it
fails with a not-found error the list is empty. -/
def getHiddenFiles (gitignore : Option (List Nat)) : ROut (List (List Nat)) :=
  match gitignore with
  | some buf => if utf8Valid buf then .ok (splitOnByte 10 buf ++ [strB ".git"]) else .err
  | none => .ok []

/-- `filter_hidden_files` of `utils.rs`, with its exact filter
condition: when the hidden list is empty keep names other than `".git"`,
otherwise keep an entry when its name differs from `".git"` OR is not in
the hidden list. -/
def filterHiddenFiles (gitignore : Option (List Nat)) (files : List FSEntry) :
    ROut (List FSEntry) :=
  (getHiddenFiles gitignore).bind fun hiddenFiles =>
    .ok (files.filter fun entry =>
      let fileName := entryName entry
      if hiddenFiles.isEmpty then fileName != strB ".git"
      else (fileName != strB ".git") || !(hiddenFiles.contains fileName))

/-- Byte-wise lexicographic order on byte lists: the `Ord` instance of
Rust strings, used by `sort_by_key` on file names. -/
def lexLe : List Nat → List Nat → Bool
  | [], _ => true
  | _ :: _, [] => false
  | a :: ra, b :: rb => if a < b then true else if b < a then false else lexLe ra rb

/-- The key order of `files.sort_by_key(|entry| entry.file_name() ...)`
in `from_directory`: byte-wise lexicographic comparison of the entry
names.  Rust's `sort_by_key` is a stable sort by this total preorder;
stable sorting by a total preorder has a unique result, which the
embedding computes with a structural insertion sort. -/
def entryLe (a b : FSEntry) : Prop := lexLe (entryName a) (entryName b) = true

instance : DecidableRel entryLe := fun a b => by unfold entryLe; infer_instance

/-- The body of the entry loop of `GitObject::from_directory`, which for
every (already filtered and sorted) entry builds the child `GitObject`
(a blob from the file content, recursively a tree for a subdirectory),
wraps it in a `TreeObject`, and appends the binary entry
`"{mode} {name}\0" ++ from_hex(hash)` to `objects_vec`.  It returns the
tree objects, the binary entries, and the trace of id-finalisation
events in program order. -/
def buildChildren (sha : List Nat → List Nat)
    (recur : List FSEntry → ROut (GObj × List Ev)) :
    List FSEntry → ROut (List TreeObj × List (List Nat) × List Ev)
  | [] => .ok ([], [], [])
  | e :: rest =>
      (match e with
       | .file _ content =>
           (fromFileContentAndTypeF sha (fun _ => none) 1 (strB "blob") content none).map
             (fun g => (g, [Ev.idFin (gHash g)]))
       | .dir _ entries => recur entries).bind fun ge =>
        let mode := entryMode e
        let obj := TreeObj.mk (gHash ge.1) (entryName e) mode (objectTypeOfMode mode) ge.1
        (fromHexBytes (gHash ge.1)).bind fun hashBytes =>
          let buf := treeFileModesDisplay mode ++ 32 :: (entryName e ++ 0 :: hashBytes)
          (buildChildren sha recur rest).map
            fun (t : List TreeObj × List (List Nat) × List Ev) =>
              (obj :: t.1, buf :: t.2.1, ge.2 ++ t.2.2)

/-- `GitObject::from_directory`, instrumented with the trace of
id-finalisation events: list the entries, filter them through
`filter_hidden_files`, sort them by file name, build every child, then
concatenate the binary entries and finalise the parent tree's id by
hashing `"tree {size}\0" ++ buffer`.  No object-store write happens
here. -/
def fromDirectoryEv (sha : List Nat → List Nat) (gitignore : Option (List Nat)) :
    Nat → List FSEntry → ROut (GObj × List Ev)
  | 0, _ => .noFuel
  | Nat.succ fuel, entries =>
      (filterHiddenFiles gitignore entries).bind fun kept =>
        let sorted := List.insertionSort entryLe kept
        (buildChildren sha (fromDirectoryEv sha gitignore fuel) sorted).bind
          fun (t : List TreeObj × List (List Nat) × List Ev) =>
          let objectsBuffer := t.2.1.flatten
          let treeSize := objectsBuffer.length
          let finalContent := strB "tree " ++ natToDec treeSize ++ 0 :: objectsBuffer
          let h := generateObjectId sha finalContent
          .ok (GObj.tree h treeSize t.1, t.2.2 ++ [Ev.idFin h])

/-- The `write-tree` command of `git.rs`: build the tree from the
directory (`from_directory`), then persist it (`write_to_file`); the
trace is the build events followed by the store writes. -/
def writeTreePipeline (sha : List Nat → List Nat) (gitignore : Option (List Nat))
    (fuel : Nat) (entries : List FSEntry) : ROut (List Ev) :=
  (fromDirectoryEv sha gitignore fuel entries).map fun ge =>
    ge.2 ++ writeGObjTrace ge.1

/-- The objects of a tree (empty for other variants). -/
def treeObjsOf : GObj → List TreeObj
  | .tree _ _ objs => objs
  | _ => []

/-- A concrete stand-in digest used to instantiate the `sha` parameter in
concrete evaluations: the input padded with zero bytes and truncated to
20 bytes.  (Any function of the right shape works; nothing below depends
on properties of SHA-1.) -/
def shaPad : List Nat → List Nat := fun l => (l ++ List.replicate 20 0).take 20

def ROut.isCrash {α : Type} : ROut α → Bool
  | .crash => true
  | _ => false

/-- The author name recorded in a successfully decoded commit. -/
def commitAuthorNameOf : ROut GObj → Option (List Nat)
  | .ok (.commit _ _ _ _ an _ _ _) => some an
  | _ => none

/-- The committer name recorded in a successfully decoded commit. -/
def commitCommitterNameOf : ROut GObj → Option (List Nat)
  | .ok (.commit _ _ _ _ _ _ cn _) => some cn
  | _ => none

/-- The modes of the entries of a successfully decoded tree. -/
def treeEntryModesOf : ROut GObj → List TreeFileModes
  | .ok g => (treeObjsOf g).map TreeObj.mode
  | _ => []

/-- A 40-byte hex id (forty `a` characters) used as the tree id of
concrete commit payloads. -/
def c2treeHash : List Nat := List.replicate 40 97

/-- A store holding exactly one object: an empty tree (payload
`"tree 0\0"`, compressed) under the id `c2treeHash`. -/
def c2store : List Nat → Option (List Nat) :=
  fun k => if k = c2treeHash then some (compress (strB "tree 0" ++ [0])) else none

/-- A commit payload with a tree line and a message but no author and no
committer line: `"tree aaaa…a\n\nhello"`. -/
def c2payloadNoAuthor : List Nat := strB "tree " ++ c2treeHash ++ 10 :: 10 :: strB "hello"

def c3tree : GObj := GObj.tree (List.replicate 40 97) 0 []

/-- A concrete commit used to inspect the persisted payload. -/
def c3commitObj : GObj :=
  GObj.commit (strB "h") (strB "msg") c3tree none
    (strB "Yassen") (strB "y@x") (strB "Yassen") (strB "y@x")

/-- The author header line that `write_to_file` produces for
`c3commitObj`. -/
def c3authorLine : List Nat := strB "author Yassen <y@x>"

/-- A directory listing with one ordinary entry and the store's reserved
directory. -/
def c5files : List FSEntry :=
  [FSEntry.file (strB "target") [], FSEntry.dir (strB ".git") []]

/-- A directory with a single one-byte file `a.txt`. -/
def c6entries : List FSEntry := [FSEntry.file (strB "a.txt") [97]]

/-- The full event trace of `write-tree` on `c6entries`. -/
def c6trace : List Ev :=
  match writeTreePipeline shaPad none 2 c6entries with
  | .ok tr => tr
  | _ => []

/-- The id of the blob built from the file `a.txt`. -/
def c6childHash : List Nat := toHexBytes (shaPad (strB "blob 1" ++ 0 :: [97]))

/-- The id of the tree built from `c6entries`. -/
def c6parentHash : List Nat :=
  match fromDirectoryEv shaPad none 2 c6entries with
  | .ok p => gHash p.1
  | _ => []

/-- The directory of the spec's ordering example: files `b.txt`,
`a.txt`, `c.txt`, listed in that (unsorted) order. -/
def c9entries : List FSEntry :=
  [FSEntry.file (strB "b.txt") [98], FSEntry.file (strB "a.txt") [97],
   FSEntry.file (strB "c.txt") [99]]

/-- The 20 raw bytes of the child blob id of the concrete tree payload
below. -/
def c10childHash : List Nat := List.replicate 20 170

/-- A store holding the one-byte blob `"a"` under the hex form of
`c10childHash`. -/
def c10store : List Nat → Option (List Nat) :=
  fun k =>
    if k = toHexBytes c10childHash then some (compress (strB "blob 1" ++ 0 :: [97]))
    else none

/-- A tree payload whose single entry carries the unrecognized mode
token `777777`. -/
def c10payload : List Nat := strB "777777 x.txt" ++ 0 :: c10childHash

/-- The id `from_directory` assigns to an empty directory. -/
def emptyDirHash : List Nat := generateObjectId shaPad (strB "tree 0" ++ [0])

/-- The result of `from_directory` on an empty directory: an empty tree
and the single id-finalisation event. -/
def emptyDirPair : GObj × List Ev :=
  (GObj.tree emptyDirHash 0 [], [Ev.idFin emptyDirHash])

theorem natToDecAux_ge48 (fuel : Nat) : ∀ (n : Nat) (acc : List Nat),
    (∀ y ∈ acc, 48 ≤ y) → ∀ y ∈ natToDecAux fuel n acc, 48 ≤ y := by
  induction fuel with
  | zero => intro n acc hacc y hy; exact hacc y hy
  | succ fuel ih =>
      intro n acc hacc y hy
      rw [natToDecAux] at hy
      by_cases hn : n = 0
      · rw [if_pos hn] at hy; exact hacc y hy
      · rw [if_neg hn] at hy
        refine ih (n / 10) _ ?_ y hy
        intro z hz
        rcases List.mem_cons.mp hz with h | h
        · omega
        · exact hacc z h

theorem natToDec_ge48 (n : Nat) : ∀ y ∈ natToDec n, 48 ≤ y := by
  intro y hy
  rw [natToDec] at hy
  by_cases hn : n = 0
  · rw [if_pos hn] at hy; simp at hy; omega
  · rw [if_neg hn] at hy
    exact natToDecAux_ge48 (n + 1) n [] (by intro z hz; simp at hz) y hy

theorem zero_not_mem_natToDec (n : Nat) : 0 ∉ natToDec n := by
  intro h
  have := natToDec_ge48 n 0 h
  omega

theorem dropPastByte_append (sep : Nat) (l r : List Nat) (h : sep ∉ l) :
    dropPastByte sep (l ++ sep :: r) = r := by
  induction l with
  | nil => simp [dropPastByte]
  | cons b rest ih =>
      have hb : b ≠ sep := by intro hb; exact h (hb ▸ List.mem_cons_self b rest)
      have hrest : sep ∉ rest := fun hm => h (List.mem_cons_of_mem b hm)
      simp only [List.cons_append, dropPastByte, if_neg hb]
      exact ih hrest

theorem splitOnByte_not_mem (sep : Nat) (l : List Nat) (h : sep ∉ l) :
    splitOnByte sep l = [l] := by
  induction l with
  | nil => rfl
  | cons b rest ih =>
      have hb : b ≠ sep := by intro hb; exact h (hb ▸ List.mem_cons_self b rest)
      have hrest : sep ∉ rest := fun hm => h (List.mem_cons_of_mem b hm)
      rw [splitOnByte, if_neg hb, ih hrest]

theorem splitOnByte_append (sep : Nat) (a r : List Nat) (h : sep ∉ a) :
    splitOnByte sep (a ++ sep :: r) = a :: splitOnByte sep r := by
  induction a with
  | nil =>
      simp only [List.nil_append]
      rw [splitOnByte, if_pos rfl]
  | cons b rest ih =>
      have hb : b ≠ sep := by intro hb; exact h (hb ▸ List.mem_cons_self b rest)
      have hrest : sep ∉ rest := fun hm => h (List.mem_cons_of_mem b hm)
      simp only [List.cons_append]
      rw [splitOnByte, if_neg hb, ih hrest]

theorem lexLe_total (a b : List Nat) : lexLe a b = true ∨ lexLe b a = true := by
  induction a generalizing b with
  | nil => left; rfl
  | cons x ra ih =>
      cases b with
      | nil => right; rfl
      | cons y rb =>
          rcases Nat.lt_trichotomy x y with h | h | h
          · left; simp [lexLe, h]
          · subst h
            rcases ih rb with hr | hr
            · left; simp [lexLe, hr]
            · right; simp [lexLe, hr]
          · right; simp [lexLe, h]

theorem lexLe_trans (a b c : List Nat) (hab : lexLe a b = true) (hbc : lexLe b c = true) :
    lexLe a c = true := by
  induction a generalizing b c with
  | nil => rfl
  | cons x ra ih =>
      cases b with
      | nil => simp [lexLe] at hab
      | cons y rb =>
          cases c with
          | nil => simp [lexLe] at hbc
          | cons z rc =>
              rw [lexLe] at hab hbc ⊢
              rcases Nat.lt_trichotomy x y with h1 | h1 | h1
              · have hzy : ¬ z < y := by
                  intro h2
                  rw [if_neg (by omega : ¬ y < z), if_pos h2] at hbc
                  simp at hbc
                rw [if_pos (by omega : x < z)]
              · subst h1
                rw [if_neg (by omega : ¬ x < x), if_neg (by omega : ¬ x < x)] at hab
                rcases Nat.lt_trichotomy x z with h2 | h2 | h2
                · rw [if_pos h2]
                · subst h2
                  rw [if_neg (by omega : ¬ x < x), if_neg (by omega : ¬ x < x)] at hbc ⊢
                  exact ih rb rc hab hbc
                · exfalso
                  rw [if_neg (by omega : ¬ x < z), if_pos h2] at hbc
                  simp at hbc
              · exfalso
                rw [if_neg (by omega : ¬ x < y), if_pos h1] at hab
                simp at hab

instance : IsTotal FSEntry entryLe :=
  ⟨fun a b => lexLe_total (entryName a) (entryName b)⟩

instance : IsTrans FSEntry entryLe :=
  ⟨fun a b c => lexLe_trans (entryName a) (entryName b) (entryName c)⟩

theorem contains_eq_true_of_mem {l : List Ev} {b : Ev} (h : b ∈ l) : l.contains b = true :=
  List.elem_eq_true_of_mem h

theorem occursBefore_append {a b : Ev} {l1 l2 : List Ev} (h1 : a ∈ l1) (h2 : b ∈ l2) :
    occursBefore a b (l1 ++ l2) = true := by
  induction l1 with
  | nil => cases h1
  | cons x rest ih =>
      rw [List.cons_append, occursBefore]
      by_cases hx : x = a
      · rw [if_pos hx]
        exact contains_eq_true_of_mem (List.mem_append_right rest h2)
      · rw [if_neg hx]
        rcases List.mem_cons.mp h1 with h | h
        · exact absurd h.symm hx
        · exact ih h

theorem store_gHash_mem_writeTrace (g : GObj) : Ev.store (gHash g) ∈ writeGObjTrace g := by
  cases g with
  | blob h s c => simp [writeGObjTrace, gHash]
  | commit h m t p an ae cn ce => simp [writeGObjTrace, gHash]
  | tree h s objs =>
      rw [writeGObjTrace, gHash]
      exact List.mem_append_right _ (List.mem_singleton.mpr rfl)

theorem mem_writeObjsTrace_of_mem {o : TreeObj} {objs : List TreeObj} (ho : o ∈ objs)
    {e : Ev} (he : e ∈ writeGObjTrace o.gitObject) : e ∈ writeObjsTrace objs := by
  induction objs with
  | nil => cases ho
  | cons o2 rest ih =>
      obtain ⟨h2, n2, m2, t2, g2⟩ := o2
      rw [writeObjsTrace]
      rcases List.mem_cons.mp ho with h | h
      · subst h
        exact List.mem_append_left _ he
      · exact List.mem_append_right _ (ih h)

theorem ROut.bind_eq_ok {α β : Type} {r : ROut α} {f : α → ROut β} {v : β}
    (h : ROut.bind r f = .ok v) : ∃ a, r = .ok a ∧ f a = .ok v := by
  cases r with
  | ok a => exact ⟨a, rfl, h⟩
  | err => exact absurd h (by simp [ROut.bind])
  | crash => exact absurd h (by simp [ROut.bind])
  | noFuel => exact absurd h (by simp [ROut.bind])

theorem ROut.map_eq_ok {α β : Type} {f : α → β} {r : ROut α} {v : β}
    (h : ROut.map f r = .ok v) : ∃ a, r = .ok a ∧ f a = v := by
  cases r with
  | ok a =>
      refine ⟨a, rfl, ?_⟩
      cases h
      rfl
  | err => exact absurd h (by simp [ROut.map])
  | crash => exact absurd h (by simp [ROut.map])
  | noFuel => exact absurd h (by simp [ROut.map])

theorem buildChildren_names (sha : List Nat → List Nat)
    (recur : List FSEntry → ROut (GObj × List Ev)) :
    ∀ (l : List FSEntry) (t : List TreeObj × List (List Nat) × List Ev),
      buildChildren sha recur l = .ok t → t.1.map TreeObj.name = l.map entryName := by
  intro l
  induction l with
  | nil =>
      intro t ht
      rw [buildChildren.eq_1] at ht
      cases ht
      rfl
  | cons e rest ih =>
      intro t ht
      cases e with
      | file n content =>
          rw [buildChildren.eq_2] at ht
          obtain ⟨ge, hge, hF⟩ := ROut.bind_eq_ok ht
          dsimp only [] at hF
          obtain ⟨hb, hhb, hmap⟩ := ROut.bind_eq_ok hF
          obtain ⟨t2, ht2, hval⟩ := ROut.map_eq_ok hmap
          subst hval
          simp only [List.map, TreeObj.name, entryName]
          rw [ih t2 ht2]
      | dir n entries =>
          rw [buildChildren.eq_3] at ht
          obtain ⟨ge, hge, hF⟩ := ROut.bind_eq_ok ht
          dsimp only [] at hF
          obtain ⟨hb, hhb, hmap⟩ := ROut.bind_eq_ok hF
          obtain ⟨t2, ht2, hval⟩ := ROut.map_eq_ok hmap
          subst hval
          simp only [List.map, TreeObj.name, entryName]
          rw [ih t2 ht2]

theorem buildChildren_noStore (sha : List Nat → List Nat)
    (recur : List FSEntry → ROut (GObj × List Ev))
    (hrec : ∀ es p, recur es = .ok p → ∀ e ∈ p.2, isStoreEv e = false) :
    ∀ (l : List FSEntry) (t : List TreeObj × List (List Nat) × List Ev),
      buildChildren sha recur l = .ok t → ∀ e ∈ t.2.2, isStoreEv e = false := by
  intro l
  induction l with
  | nil =>
      intro t ht
      rw [buildChildren.eq_1] at ht
      cases ht
      intro e he
      cases he
  | cons en rest ih =>
      intro t ht
      cases en with
      | file n content =>
          rw [buildChildren.eq_2] at ht
          obtain ⟨ge, hge, hF⟩ := ROut.bind_eq_ok ht
          dsimp only [] at hF
          obtain ⟨hb, hhb, hmap⟩ := ROut.bind_eq_ok hF
          obtain ⟨t2, ht2, hval⟩ := ROut.map_eq_ok hmap
          subst hval
          obtain ⟨g, hg, hpair⟩ := ROut.map_eq_ok hge
          intro e he
          rcases List.mem_append.mp he with h1 | h1
          · rw [← hpair] at h1
            simp at h1
            rw [h1]
            rfl
          · exact ih t2 ht2 e h1
      | dir n entries =>
          rw [buildChildren.eq_3] at ht
          obtain ⟨ge, hge, hF⟩ := ROut.bind_eq_ok ht
          dsimp only [] at hF
          obtain ⟨hb, hhb, hmap⟩ := ROut.bind_eq_ok hF
          obtain ⟨t2, ht2, hval⟩ := ROut.map_eq_ok hmap
          subst hval
          intro e he
          rcases List.mem_append.mp he with h1 | h1
          · exact hrec entries ge hge e h1
          · exact ih t2 ht2 e h1

theorem fromDirectoryEv_noStore (sha : List Nat → List Nat) (gitignore : Option (List Nat)) :
    ∀ (fuel : Nat) (entries : List FSEntry) (p : GObj × List Ev),
      fromDirectoryEv sha gitignore fuel entries = .ok p → ∀ e ∈ p.2, isStoreEv e = false := by
  intro fuel
  induction fuel with
  | zero =>
      intro entries p h
      rw [fromDirectoryEv] at h
      exact absurd h (by simp)
  | succ fuel ih =>
      intro entries p h
      rw [fromDirectoryEv] at h
      obtain ⟨kept, hkept, h2⟩ := ROut.bind_eq_ok h
      obtain ⟨t, htB, h3⟩ := ROut.bind_eq_ok h2
      dsimp only [] at h3
      cases h3
      intro e he
      rcases List.mem_append.mp he with h1 | h1
      · exact buildChildren_noStore sha _ (fun es q hq => ih es q hq) _ t htB e h1
      · simp at h1
        rw [h1]
        rfl

theorem fromDirectoryEv_sorted (sha : List Nat → List Nat) (gitignore : Option (List Nat))
    (fuel : Nat) (entries : List FSEntry) (p : GObj × List Ev)
    (h : fromDirectoryEv sha gitignore fuel entries = .ok p) :
    List.Pairwise (fun a b => lexLe a b = true) ((treeObjsOf p.1).map TreeObj.name) := by
  cases fuel with
  | zero =>
      rw [fromDirectoryEv] at h
      exact absurd h (by simp)
  | succ fuel =>
      rw [fromDirectoryEv] at h
      obtain ⟨kept, hkept, h2⟩ := ROut.bind_eq_ok h
      obtain ⟨t, htB, h3⟩ := ROut.bind_eq_ok h2
      dsimp only [] at h3
      cases h3
      dsimp only [treeObjsOf]
      rw [buildChildren_names sha _ _ t htB]
      have hs := List.sorted_insertionSort entryLe kept
      exact List.Pairwise.map entryName (fun a b hab => hab) hs

/-- C7: for every byte sequence `x`, including the empty sequence,
`decompress (compress x) = x` (the lossless round-trip of the
zlib pair, modelled from the spec). -/
theorem decompress_compress_roundtrip (x : List Nat) : decompress (compress x) = .ok x := by
  have e : decompress (compress x) = .ok (dropPastByte 0 (natToDec x.length ++ 0 :: x)) := rfl
  rw [e, dropPastByte_append 0 _ x (zero_not_mem_natToDec x.length)]

/-- C1 (evidence of the divergence): decoding a blob whose payload is
the single byte `0xFF` — not valid UTF-8 — fails with a typed error
instead of succeeding, because the `"blob"` branch of
`from_file_content_and_type` insists on `String::from_utf8`; the same
happens through the full `from_file_content` path, while the payload is
rejected precisely because `utf8Valid` is false. -/
theorem blob_decode_requires_utf8_failing_input :
    (fromFileContentAndTypeF shaPad (fun _ => none) 1 (strB "blob") [255]
        (some (strB "h"))).isErr = true
  ∧ utf8Valid [255] = false
  ∧ (fromFileContent shaPad (fun _ => none) 1 (strB "h")
        (compress (strB "blob 1" ++ 0 :: [255]))).isErr = true := by decide

/-- C4 (evidence of the divergence): `parse_content_header` panics
(out-of-bounds slice), rather than returning a typed error, on truncated
input: a 1-byte input (the slice `content[0..4]`), a bare 4-byte tag
`"blob"` (the slice `content[5..]`), a bare `"comm"` (the slice
`content[0..6]`) and a bare `"commit"` (the slice `content[7..]`); the
panic propagates through `from_file_content`. -/
theorem parse_content_header_truncated_input_crashes :
    parseContentHeader [98] = .crash
  ∧ parseContentHeader (strB "blob") = .crash
  ∧ parseContentHeader (strB "comm") = .crash
  ∧ parseContentHeader (strB "commit") = .crash
  ∧ (fromFileContent shaPad (fun _ => none) 1 (strB "h") (compress [98])).isCrash = true := by
  decide

/-- C5 (evidence of the divergence): with a `.gitignore` listing
`target`, `filter_hidden_files` still keeps an entry named `target`
(its condition `name != ".git" || !hidden.contains(name)` is true for
every name other than `".git"`), even though `target` is in the hidden
list it computed; with the ignore file absent, only `.git` is
excluded. -/
theorem filter_hidden_files_keeps_gitignored_name :
    (filterHiddenFiles (some (strB "target")) c5files).map (fun l => l.map entryName)
        = .ok [strB "target"]
  ∧ (getHiddenFiles (some (strB "target"))).map (fun l => l.contains (strB "target"))
        = .ok true
  ∧ (filterHiddenFiles none c5files).map (fun l => l.map entryName)
        = .ok [strB "target"] := by decide

/-- C2 (counterexample): the commit payload `"tree aaaa…a\n\nhello"`,
which has no author line and no committer line, decodes successfully —
with empty author and committer names — instead of failing with a parse
error. -/
theorem commit_decode_missing_author_succeeds_cex :
    (fromFileContentAndTypeF shaPad c2store 2 (strB "commit") c2payloadNoAuthor
        (some (strB "h"))).isOk = true
  ∧ commitAuthorNameOf (fromFileContentAndTypeF shaPad c2store 2 (strB "commit")
        c2payloadNoAuthor (some (strB "h"))) = some []
  ∧ commitCommitterNameOf (fromFileContentAndTypeF shaPad c2store 2 (strB "commit")
        c2payloadNoAuthor (some (strB "h"))) = some []
  ∧ ((splitOnByte 10 c2payloadNoAuthor).any (fun l => (strB "author").isPrefixOf l)) = false
  ∧ ((splitOnByte 10 c2payloadNoAuthor).any (fun l => (strB "committer").isPrefixOf l)) = false := by
  decide

/-- C6 (counterexample): on the one-file directory `c6entries`, no
object-store write of the child blob happens before the parent tree's
id is finalised — the opposite order holds: the parent id event
precedes the child's store write in the `write-tree` trace, because
`from_directory` computes all ids before `write_to_file` performs any
store write. -/
theorem child_store_write_not_before_parent_id_cex :
    occursBefore (Ev.store c6childHash) (Ev.idFin c6parentHash) c6trace = false
  ∧ Ev.store c6childHash ∈ c6trace
  ∧ Ev.idFin c6parentHash ∈ c6trace
  ∧ occursBefore (Ev.idFin c6parentHash) (Ev.store c6childHash) c6trace = true
  ∧ c6childHash ≠ c6parentHash := by decide

theorem parseContentHeader_commit_prefix (rest : List Nat) :
    parseContentHeader (99 :: 111 :: 109 :: 109 :: 105 :: 116 :: 32 :: rest)
      = .ok ([99, 111, 109, 109, 105, 116], dropThroughNull rest) := rfl

/-- C8: parsing a stored object whose canonical encoding is
`"commit " ++ size ++ "\0" ++ payload` returns the 6-byte type tag
`commit` together with the payload that begins immediately after the
null byte following `"commit <size>"` — not after byte offset 5. -/
theorem parse_content_header_commit_tag (size payload : List Nat) (hsize : 0 ∉ size) :
    parseContentHeader (strB "commit " ++ size ++ 0 :: payload)
      = .ok (strB "commit", payload) := by
  have e : strB "commit " ++ size ++ 0 :: payload
      = 99 :: 111 :: 109 :: 109 :: 105 :: 116 :: 32 :: (size ++ 0 :: payload) := rfl
  rw [e, parseContentHeader_commit_prefix]
  have e2 : dropThroughNull (size ++ 0 :: payload) = payload := by
    have e3 : dropThroughNull (size ++ 0 :: payload)
        = dropPastByte 0 (size ++ 0 :: payload) := rfl
    rw [e3, dropPastByte_append 0 size payload hsize]
  rw [e2]
  exact rfl

/-- C8 witness: the theorem applied at the concrete encoding
`"commit 1\0x"`. -/
theorem parse_content_header_commit_tag_witness :
    (0 : Nat) ∉ [49]
  ∧ parseContentHeader (strB "commit " ++ [49] ++ 0 :: [120]) = .ok (strB "commit", [120]) :=
  ⟨by decide, parse_content_header_commit_tag [49] [120] (by decide)⟩

/-- C10: a mode token that is none of `100644`, `100755`, `120000`,
`040000`, `40000` is silently mapped to `Regular` and the entry is
typed `blob`; concretely, a tree payload whose entry carries mode
`777777` decodes without error, its entry having mode `Regular`. -/
theorem unrecognized_mode_maps_to_regular_blob :
    (∀ m : List Nat,
        m ∉ [strB "100644", strB "100755", strB "120000", strB "040000", strB "40000"] →
        treeFileModesOfBytes m = .Regular
          ∧ objectTypeOfMode (treeFileModesOfBytes m) = strB "blob")
  ∧ (fromFileContentAndTypeF shaPad c10store 2 (strB "tree") c10payload
        (some (strB "h"))).isOk = true
  ∧ treeEntryModesOf (fromFileContentAndTypeF shaPad c10store 2 (strB "tree") c10payload
        (some (strB "h"))) = [TreeFileModes.Regular] := by
  refine ⟨?_, by decide, by decide⟩
  intro m hm
  simp only [List.mem_cons, List.not_mem_nil, or_false, not_or] at hm
  obtain ⟨h1, h2, h3, h4, h5⟩ := hm
  rw [treeFileModesOfBytes, if_neg h1, if_neg h2, if_neg h3, if_neg h4, if_neg h5]
  exact ⟨rfl, rfl⟩

/-- C10 witness: the theorem applied at the unrecognized mode token
`999999`. -/
theorem unrecognized_mode_maps_to_regular_blob_witness :
    (strB "999999"
        ∉ [strB "100644", strB "100755", strB "120000", strB "040000", strB "40000"])
  ∧ treeFileModesOfBytes (strB "999999") = .Regular
  ∧ objectTypeOfMode (treeFileModesOfBytes (strB "999999")) = strB "blob" :=
  ⟨by decide,
   (unrecognized_mode_maps_to_regular_blob.1 (strB "999999") (by decide)).1,
   (unrecognized_mode_maps_to_regular_blob.1 (strB "999999") (by decide)).2⟩

/-- C9: every tree built by `from_directory` lists its entries in
byte-wise ascending filename order (the filtered entries are sorted by
name before the loop), and concretely a directory containing `b.txt`,
`a.txt`, `c.txt` yields entries named `a.txt`, `b.txt`, `c.txt`. -/
theorem tree_entries_sorted_by_name :
    (∀ (sha : List Nat → List Nat) (gitignore : Option (List Nat)) (fuel : Nat)
        (entries : List FSEntry) (p : GObj × List Ev),
        fromDirectoryEv sha gitignore fuel entries = .ok p →
        List.Pairwise (fun a b => lexLe a b = true) ((treeObjsOf p.1).map TreeObj.name))
  ∧ (fromDirectoryEv shaPad none 2 c9entries).map
        (fun p => (treeObjsOf p.1).map TreeObj.name)
      = .ok [strB "a.txt", strB "b.txt", strB "c.txt"] :=
  ⟨fun sha gitignore fuel entries p h => fromDirectoryEv_sorted sha gitignore fuel entries p h,
   by decide⟩

/-- C9 witness: the universal part applied to the empty directory, whose
tree `from_directory` builds with no entries. -/
theorem tree_entries_sorted_by_name_witness :
    fromDirectoryEv shaPad none 1 [] = .ok emptyDirPair
  ∧ List.Pairwise (fun a b => lexLe a b = true)
      ((treeObjsOf emptyDirPair.1).map TreeObj.name) :=
  ⟨rfl, tree_entries_sorted_by_name.1 shaPad none 1 [] emptyDirPair rfl⟩

/-- C6 (amended): during persistence, `write_to_file` on a tree writes
every child object to the store strictly before the parent tree's own
store write; and `from_directory` performs no store writes at all (it
only finalises ids), so all identifiers are finalised before any store
write of the `write-tree` pipeline. -/
theorem store_write_order_bottom_up :
    (∀ (h : List Nat) (s : Nat) (objs : List TreeObj), ∀ o ∈ objs,
        occursBefore (Ev.store (gHash o.gitObject)) (Ev.store h)
          (writeGObjTrace (GObj.tree h s objs)) = true)
  ∧ (∀ (sha : List Nat → List Nat) (gitignore : Option (List Nat)) (fuel : Nat)
        (entries : List FSEntry) (p : GObj × List Ev),
        fromDirectoryEv sha gitignore fuel entries = .ok p →
        ∀ e ∈ p.2, isStoreEv e = false) := by
  constructor
  · intro h s objs o ho
    rw [writeGObjTrace]
    exact occursBefore_append
      (mem_writeObjsTrace_of_mem ho (store_gHash_mem_writeTrace o.gitObject))
      (List.mem_singleton.mpr rfl)
  · intro sha gitignore
    exact fromDirectoryEv_noStore sha gitignore

/-- C6 witness: both parts at concrete inputs — a tree with a single
blob child, and the build of the empty directory. -/
theorem store_write_order_bottom_up_witness :
    occursBefore (Ev.store (strB "c")) (Ev.store (strB "p"))
        (writeGObjTrace (GObj.tree (strB "p") 0
          [TreeObj.mk (strB "c") [] .Regular (strB "blob") (GObj.blob (strB "c") 0 [])])) = true
  ∧ isStoreEv (Ev.idFin emptyDirHash) = false :=
  ⟨store_write_order_bottom_up.1 (strB "p") 0
      [TreeObj.mk (strB "c") [] .Regular (strB "blob") (GObj.blob (strB "c") 0 [])]
      (TreeObj.mk (strB "c") [] .Regular (strB "blob") (GObj.blob (strB "c") 0 []))
      (List.mem_singleton.mpr rfl),
   store_write_order_bottom_up.2 shaPad none 1 [] emptyDirPair rfl
      (Ev.idFin emptyDirHash) (List.mem_singleton.mpr rfl)⟩

/-- C3 (counterexample): on the concrete commit `c3commitObj` the
persisted author header line is exactly `"author Yassen <y@x>"`, and no
decomposition `"author " ++ name ++ " <" ++ email ++ "> " ++ ts ++ " " ++ tz`
of it exists — the claimed timestamp and timezone tokens are absent
(the line has two spaces where the claimed form forces at least
four). -/
theorem commit_write_author_line_has_no_timestamp_cex :
    (commitUncomposedContent c3commitObj).map (fun l => (splitOnByte 10 l)[1]?)
        = some (some c3authorLine)
  ∧ ¬ ∃ n e ts tz : List Nat,
      c3authorLine = strB "author " ++ n ++ strB " <" ++ e ++ strB "> " ++ ts ++ 32 :: tz := by
  constructor
  · decide
  · rintro ⟨n, e, ts, tz, hEq⟩
    have hc := congrArg (List.count 32) hEq
    have h1 : List.count 32 c3authorLine = 2 := by decide
    have h2 : List.count 32 (strB "author ") = 1 := by decide
    have h3 : List.count 32 (strB " <") = 1 := by decide
    have h4 : List.count 32 (strB "> ") = 1 := by decide
    rw [h1] at hc
    simp only [List.count_append, List.count_cons] at hc
    rw [h2, h3, h4] at hc
    simp at hc
    omega

theorem splitCommitPayload (A B C msg : List Nat)
    (hA : (10:Nat) ∉ A) (hB : (10:Nat) ∉ B) (hC : (10:Nat) ∉ C) (hm : (10:Nat) ∉ msg) :
    splitOnByte 10 (A ++ [10] ++ B ++ [10] ++ C ++ [10, 10] ++ msg ++ [10])
      = [A, B, C, [], msg, []] := by
  have e0 : A ++ [10] ++ B ++ [10] ++ C ++ [10, 10] ++ msg ++ [10]
      = A ++ 10 :: (B ++ 10 :: (C ++ 10 :: 10 :: (msg ++ 10 :: []))) := by
    simp [List.append_assoc]
  rw [e0, splitOnByte_append 10 A _ hA, splitOnByte_append 10 B _ hB,
    splitOnByte_append 10 C _ hC]
  rw [show splitOnByte 10 (10 :: (msg ++ 10 :: [])) = [] :: splitOnByte 10 (msg ++ 10 :: [])
    from by rw [splitOnByte]; simp]
  rw [splitOnByte_append 10 msg [] hm]
  rfl

/-- C3 (amended): persisting a commit (with no parents and
newline-free fields) produces a payload whose lines are exactly the
tree line, `"author {name} <{email}>"`, `"committer {name} <{email}>"`,
a blank line, the message, and the empty fragment after the trailing
newline — the author and committer lines carry no timestamp and no
timezone token. -/
theorem commit_write_author_committer_line_shape
    (hash msg an ae cn ce : List Nat) (tr : GObj)
    (h1 : (10:Nat) ∉ an) (h2 : (10:Nat) ∉ ae) (h3 : (10:Nat) ∉ cn) (h4 : (10:Nat) ∉ ce)
    (h5 : (10:Nat) ∉ msg) (h6 : (10:Nat) ∉ gHash tr) :
    (commitUncomposedContent (GObj.commit hash msg tr none an ae cn ce)).map (splitOnByte 10)
      = some [strB "tree " ++ gHash tr,
              strB "author " ++ an ++ strB " <" ++ ae ++ [62],
              strB "committer " ++ cn ++ strB " <" ++ ce ++ [62],
              [], msg, []] := by
  have hA : (10:Nat) ∉ strB "tree " ++ gHash tr := by
    simp only [List.mem_append]
    rintro (hm | hm)
    · revert hm; decide
    · exact h6 hm
  have hB : (10:Nat) ∉ strB "author " ++ an ++ strB " <" ++ ae ++ [62] := by
    simp only [List.mem_append]
    rintro ((((hm | hm) | hm) | hm) | hm)
    · revert hm; decide
    · exact h1 hm
    · revert hm; decide
    · exact h2 hm
    · revert hm; decide
  have hC : (10:Nat) ∉ strB "committer " ++ cn ++ strB " <" ++ ce ++ [62] := by
    simp only [List.mem_append]
    rintro ((((hm | hm) | hm) | hm) | hm)
    · revert hm; decide
    · exact h3 hm
    · revert hm; decide
    · exact h4 hm
    · revert hm; decide
  have hbody : commitUncomposedContent (GObj.commit hash msg tr none an ae cn ce)
      = some ((strB "tree " ++ gHash tr) ++ [10]
          ++ (strB "author " ++ an ++ strB " <" ++ ae ++ [62]) ++ [10]
          ++ (strB "committer " ++ cn ++ strB " <" ++ ce ++ [62]) ++ [10, 10]
          ++ msg ++ [10]) := by
    dsimp only [commitUncomposedContent]
    simp [List.append_assoc]
  rw [hbody]
  refine congrArg some ?_
  exact splitCommitPayload _ _ _ msg hA hB hC h5

/-- C3 witness: the amended statement at the concrete commit
`c3commitObj`. -/
theorem commit_write_author_committer_line_shape_witness :
    ((10:Nat) ∉ strB "Yassen") ∧ ((10:Nat) ∉ strB "y@x") ∧ ((10:Nat) ∉ strB "msg")
  ∧ ((10:Nat) ∉ gHash c3tree)
  ∧ (commitUncomposedContent c3commitObj).map (splitOnByte 10)
      = some [strB "tree " ++ gHash c3tree,
              strB "author " ++ strB "Yassen" ++ strB " <" ++ strB "y@x" ++ [62],
              strB "committer " ++ strB "Yassen" ++ strB " <" ++ strB "y@x" ++ [62],
              [], strB "msg", []] :=
  ⟨by decide, by decide, by decide, by decide,
   commit_write_author_committer_line_shape (strB "h") (strB "msg") (strB "Yassen")
     (strB "y@x") (strB "Yassen") (strB "y@x") c3tree (by decide) (by decide) (by decide)
     (by decide) (by decide) (by decide)⟩

/-- C2 (amended): a commit payload of the form
`"tree <id>\n\n<message>"` — missing both the author and the committer
line — decodes successfully (provided the tree id resolves through the
store), yielding a commit whose author and committer fields are all
empty and whose message is the line after the blank line; the parser
reports no error for the absent header lines. -/
theorem commit_decode_tolerates_missing_headers
    (sha : List Nat → List Nat) (store : List Nat → Option (List Nat)) (fuel : Nat)
    (h th msg tc : List Nat) (tobj : GObj)
    (hth10 : (10:Nat) ∉ th) (hth32 : (32:Nat) ∉ th) (hmsg : (10:Nat) ∉ msg)
    (hutf : utf8Valid (strB "tree " ++ th ++ 10 :: 10 :: msg) = true)
    (hstore : store th = some tc)
    (hchild : fromFileContent sha store fuel th tc = .ok tobj) :
    fromFileContentAndTypeF sha store (fuel + 1) (strB "commit")
        (strB "tree " ++ th ++ 10 :: 10 :: msg) (some h)
      = .ok (.commit h msg tobj none [] [] [] []) := by
  have h10a : (10:Nat) ∉ strB "tree " ++ th := by
    simp only [List.mem_append]
    rintro (hm | hm)
    · revert hm; decide
    · exact hth10 hm
  have hsplit : splitOnByte 10 (strB "tree " ++ th ++ 10 :: 10 :: msg)
      = (strB "tree " ++ th) :: [] :: [msg] := by
    have e1 : strB "tree " ++ th ++ 10 :: 10 :: msg
        = (strB "tree " ++ th) ++ 10 :: (10 :: msg) := by rw [List.append_assoc]
    rw [e1, splitOnByte_append 10 _ _ h10a]
    rw [show splitOnByte 10 (10 :: msg) = [] :: splitOnByte 10 msg
      from by rw [splitOnByte]; simp]
    rw [splitOnByte_not_mem 10 msg hmsg]
  have hsplit32 : (splitOnByte 32 (strB "tree " ++ th))[1]? = some th := by
    have e2 : strB "tree " ++ th = [116, 114, 101, 101] ++ 32 :: th := rfl
    rw [e2, splitOnByte_append 32 _ _ (by decide), splitOnByte_not_mem 32 th hth32]
    rfl
  have hchild2 : decodeWith (fromFileContentAndTypeF sha store fuel) th tc = .ok tobj := hchild
  rw [fromFileContentAndTypeF]
  rw [if_neg (by decide), if_neg (by decide), if_pos rfl]
  dsimp only [getOrGenerateHash]
  rw [if_pos hutf]
  simp only [hsplit, hsplit32, hstore]
  rw [hchild2]
  rfl

/-- C2 witness: the amended statement at the concrete payload
`c2payloadNoAuthor` over the one-object store `c2store`. -/
theorem commit_decode_tolerates_missing_headers_witness :
    ((10:Nat) ∉ c2treeHash) ∧ ((32:Nat) ∉ c2treeHash) ∧ ((10:Nat) ∉ strB "hello")
  ∧ utf8Valid (strB "tree " ++ c2treeHash ++ 10 :: 10 :: strB "hello") = true
  ∧ c2store c2treeHash = some (compress (strB "tree 0" ++ [0]))
  ∧ fromFileContent shaPad c2store 1 c2treeHash (compress (strB "tree 0" ++ [0]))
      = .ok (GObj.tree c2treeHash 0 [])
  ∧ fromFileContentAndTypeF shaPad c2store 2 (strB "commit")
        (strB "tree " ++ c2treeHash ++ 10 :: 10 :: strB "hello") (some (strB "h"))
      = .ok (GObj.commit (strB "h") (strB "hello") (GObj.tree c2treeHash 0 []) none [] [] [] []) :=
  ⟨by decide, by decide, by decide, by decide, by decide, rfl,
   commit_decode_tolerates_missing_headers shaPad c2store 1 (strB "h") c2treeHash
     (strB "hello") (compress (strB "tree 0" ++ [0])) (GObj.tree c2treeHash 0 [])
     (by decide) (by decide) (by decide) (by decide) (by decide) (by rfl)⟩
